import Mathlib

/-!
Verification of the multidimensional-array core of the GDAL repository, as
specified in `spec.md` and exercised by `autotest/gcore/numpy_rw_multidim.py`.
The native core (ExtendedDataType, Dimension, Group, MDArray and the strided
copy engine) is not part of the provided source excerpt, which contains only
its Python test suite; the definitions below are therefore modelled from the
specification, with every concrete behavior cross-checked against the values
asserted by the tests.
-/

namespace GDALMD

/-- Modelled from the spec: the error taxonomy of section 7 (the native error
kinds surfaced by the array core). -/
inductive ErrKind where
  | InvalidArgument
  | OutOfRange
  | NotFound
  | AlreadyExists
  | NotSupported
  deriving DecidableEq

/-- Modelled from the spec: the closed set of primitive element-type kinds
(section 3, ExtendedDataType `kind`), named after the GDAL data-type codes
used by the tests. -/
inductive GDALDataType where
  | GDT_Byte
  | GDT_Int8
  | GDT_UInt16
  | GDT_Int16
  | GDT_UInt32
  | GDT_Int32
  | GDT_Float32
  | GDT_Float64
  | GDT_CInt16
  | GDT_CInt32
  | GDT_CFloat32
  | GDT_CFloat64
  deriving DecidableEq

/-- Modelled from the spec: size in bytes of each primitive kind
(section 3, ExtendedDataType `size`). -/
def dtSizeBytes : GDALDataType → Nat
  | .GDT_Byte => 1
  | .GDT_Int8 => 1
  | .GDT_UInt16 => 2
  | .GDT_Int16 => 2
  | .GDT_UInt32 => 4
  | .GDT_Int32 => 4
  | .GDT_Float32 => 4
  | .GDT_Float64 => 8
  | .GDT_CInt16 => 4
  | .GDT_CInt32 => 8
  | .GDT_CFloat32 => 8
  | .GDT_CFloat64 => 16

/-- Modelled from the spec: whether a primitive kind is complex (has a real
and an imaginary component). -/
def isComplexDT : GDALDataType → Bool
  | .GDT_CInt16 => true
  | .GDT_CInt32 => true
  | .GDT_CFloat32 => true
  | .GDT_CFloat64 => true
  | _ => false

/-- Modelled from the spec: smallest integer value exactly representable in
one scalar component of the given primitive kind (floating kinds carry the
exactly-representable integer range of their mantissa). -/
def intLow : GDALDataType → Int
  | .GDT_Byte => 0
  | .GDT_Int8 => -128
  | .GDT_UInt16 => 0
  | .GDT_Int16 => -32768
  | .GDT_UInt32 => 0
  | .GDT_Int32 => -2147483648
  | .GDT_Float32 => -16777216
  | .GDT_Float64 => -9007199254740992
  | .GDT_CInt16 => -32768
  | .GDT_CInt32 => -2147483648
  | .GDT_CFloat32 => -16777216
  | .GDT_CFloat64 => -9007199254740992

/-- Modelled from the spec: largest integer value exactly representable in
one scalar component of the given primitive kind. -/
def intHigh : GDALDataType → Int
  | .GDT_Byte => 255
  | .GDT_Int8 => 127
  | .GDT_UInt16 => 65535
  | .GDT_Int16 => 32767
  | .GDT_UInt32 => 4294967295
  | .GDT_Int32 => 2147483647
  | .GDT_Float32 => 16777216
  | .GDT_Float64 => 9007199254740992
  | .GDT_CInt16 => 32767
  | .GDT_CInt32 => 2147483647
  | .GDT_CFloat32 => 16777216
  | .GDT_CFloat64 => 9007199254740992

/-- Modelled from the spec: conversion of one scalar component into the
destination kind (section 4.1, `ConvertValueBuffer`, "numeric
narrowing/widening"): an exactly-representable value passes through
unchanged; out-of-range values are clamped to the destination range (the
spec leaves out-of-range behavior open and no claim depends on it). -/
def clampComp (t : GDALDataType) (v : Int) : Int :=
  if v < intLow t then intLow t else if intHigh t < v then intHigh t else v

/-- Modelled from the spec: whether an integer is exactly representable in
one scalar component of the given primitive kind. -/
def inIntRange (t : GDALDataType) (v : Int) : Bool :=
  decide (intLow t ≤ v) && decide (v ≤ intHigh t)

/-- Modelled from the spec: the value of one array element, either a
primitive value (real and imaginary scalar components, the imaginary one
being 0 for non-complex kinds) or a compound record of scalar fields. -/
inductive MDValue where
  | prim (re im : Int)
  | record (fields : List Int)
  deriving DecidableEq

/-- Modelled from the spec: one `{name, byteOffset, componentType}` entry of
a compound ExtendedDataType (section 3); the model restricts component types
to primitive kinds, which covers every layout the tests build. -/
structure EDTComponent where
  compName : String
  byteOffset : Nat
  compType : GDALDataType
  deriving DecidableEq

/-- Modelled from the spec: an ExtendedDataType, either primitive or a
compound record of named, offset-tagged components (section 3). -/
inductive EDT where
  | primEDT (t : GDALDataType)
  | compoundEDT (tname : String) (totalSize : Nat) (comps : List EDTComponent)
  deriving DecidableEq

/-- Modelled from the spec: total size in bytes of an element of this type. -/
def EDT.size : EDT → Nat
  | .primEDT t => dtSizeBytes t
  | .compoundEDT _ sz _ => sz

/-- Modelled from the spec: `CreateCompound(name, totalSize, components)`
(section 4.1) fails with InvalidArgument — here `none` — if `totalSize` is
non-positive, if any component name is duplicated, or if any component's
byte range `[offset, offset+size)` exceeds `totalSize`. -/
def createCompound (nm : String) (totalSize : Int) (comps : List EDTComponent) : Option EDT :=
  if totalSize ≤ 0 then none
  else if ¬ (comps.map fun c => c.compName).Nodup then none
  else if comps.any fun c => decide (totalSize < ((c.byteOffset + dtSizeBytes c.compType : Nat) : Int)) then none
  else some (EDT.compoundEDT nm totalSize.toNat comps)

/-- Modelled from the spec: in-flight element conversion between buffer and
array element types (section 4.1 / 4.3): each scalar component is converted
into the destination component kind, the imaginary part being dropped when
narrowing complex→real and zero when widening real→complex; compound
records are converted field by field against the destination components. -/
def convertValue (src dst : EDT) (v : MDValue) : MDValue :=
  match dst, v with
  | .primEDT td, .prim re im =>
      .prim (clampComp td re) (if isComplexDT td then clampComp td im else 0)
  | .compoundEDT _ _ comps, .record fs =>
      .record ((comps.zip fs).map fun p => clampComp p.1.compType p.2)
  | _, _ => v

/-- Modelled from the spec: a primitive element value well formed for a
primitive kind: its real component in the kind's exactly-representable
range, and its imaginary component likewise for complex kinds and 0 for
real kinds. -/
def wellFormedV (t : GDALDataType) : MDValue → Bool
  | .prim re im =>
      inIntRange t re && (if isComplexDT t then inIntRange t im else decide (im = 0))
  | .record _ => false

/-- Modelled from the spec: result status of a Read/Write operation
(section 7: success, or exactly one error kind with no partial side
effect). -/
inductive Status where
  | ok
  | err (e : ErrKind)
  deriving DecidableEq

/-- Product of a list of dimension sizes (total element count, section 3). -/
def listProd : List Nat → Nat
  | [] => 1
  | n :: ns => n * listProd ns

/-- Modelled from the spec: per-dimension validation of
`arrayStartIdx/count/arrayStep` (section 4.3): with `count = 0` the start
may lie anywhere in `[0, size]`; otherwise the start must lie in
`[0, size)` and the last sampled index `start + (count-1)*step` must also
lie in `[0, size)`. -/
def dimOK (sz : Nat) (s : Int) (c : Nat) (t : Int) : Bool :=
  if c = 0 then decide (0 ≤ s) && decide (s ≤ (sz : Int))
  else
    decide (0 ≤ s) && decide (s < (sz : Int)) &&
    decide (0 ≤ s + ((c : Int) - 1) * t) && decide (s + ((c : Int) - 1) * t < (sz : Int))

/-- Modelled from the spec: conjunction of `dimOK` over all dimensions;
`false` as well on a rank mismatch between the argument vectors. -/
def allDimsOK : List Nat → List Int → List Nat → List Int → Bool
  | [], [], [], [] => true
  | sz :: szs, s :: ss, c :: cs, t :: ts => dimOK sz s c t && allDimsOK szs ss cs ts
  | _, _, _, _ => false

/-- Modelled from the spec: argument validation performed before any byte is
copied (section 7 propagation policy): a rank mismatch is InvalidArgument,
a start/count/step combination leaving a dimension's bounds is OutOfRange. -/
def validateArgs (shape : List Nat) (start : List Int) (count : List Nat) (step : List Int) : Status :=
  if start.length = shape.length ∧ count.length = shape.length ∧ step.length = shape.length then
    if allDimsOK shape start count step then .ok else .err .OutOfRange
  else .err .InvalidArgument

/-- Modelled from the spec: an MDArray (section 3): a name, a shape, an
element type, and a backing store addressed through a base element offset
and per-axis element strides (row-major with base 0 for arrays the core
allocates itself; the view's own offsets for overlays over external
buffers). -/
structure MDArrayS where
  aname : String
  shape : List Nat
  dtype : EDT
  base : Int
  strides : List Int
  storage : List MDValue
  deriving DecidableEq

/-- Default element value used to fill freshly allocated storage. -/
def defaultElem : MDValue := .prim 0 0

/-- Total lookup into a flat buffer at a signed element offset (negative or
out-of-bounds offsets yield the default element; validation keeps every
exercised offset in range). -/
def getI (l : List MDValue) (o : Int) : MDValue :=
  if 0 ≤ o then l.getD o.toNat defaultElem else l.getD 0 defaultElem

/-- Total update of a flat buffer at a signed element offset (negative or
out-of-bounds offsets leave the buffer unchanged). -/
def setI (l : List MDValue) (o : Int) (v : MDValue) : List MDValue :=
  if 0 ≤ o then l.set o.toNat v else l

/-- Modelled from the spec: the row-major element strides computed from a
shape (section 4.3: default buffer layout, last dimension fastest, unit
stride). -/
def rowMajorStrides : List Nat → List Int
  | [] => []
  | _ :: ds => ((listProd ds : Nat) : Int) :: rowMajorStrides ds

/-- Modelled from the spec: row-major enumeration of the N-dimensional index
space `[0,d0) × [0,d1) × …` (section 4.3: the copy algorithm iterates the
index space in last-axis-fastest order). -/
def allIndices : List Nat → List (List Nat)
  | [] => [[]]
  | n :: rest => (List.range n).flatMap fun i => (allIndices rest).map fun is => i :: is

/-- Row-major rank of a multi-index inside a shape: the position at which
the row-major enumeration visits it. -/
def rmRank : List Nat → List Nat → Nat
  | _ :: ds, i :: is => i * listProd ds + rmRank ds is
  | _, _ => 0

/-- Modelled from the spec: source element offset of one multi-index
(section 4.3): `Σ (arrayStartIdx[i] + idx[i]*arrayStep[i]) *
arrayElementStride[i]`. -/
def srcOffsets : List Int → List Int → List Int → List Nat → Int
  | s :: ss, t :: ts, r :: rs, i :: is => (s + (i : Int) * t) * r + srcOffsets ss ts rs is
  | _, _, _, _ => 0

/-- Modelled from the spec: buffer element offset of one multi-index
(section 4.3): `Σ idx[i] * bufferStride[i]`. -/
def bufOffsetZ : List Int → List Nat → Int
  | r :: rs, i :: is => (i : Int) * r + bufOffsetZ rs is
  | _, _ => 0

/-- Modelled from the spec: the strided Read operation (section 4.3): after
validating every argument (before any byte moves), iterate the index space
of `count` in row-major order and deposit each source element — converted
in-flight into the buffer element type — at its strided buffer offset;
returns the filled buffer and a status, the buffer being returned untouched
on a validation failure. -/
def mdReadRun (a : MDArrayS) (start : List Int) (count : List Nat) (step : List Int)
    (bufStride : List Int) (bufDT : EDT) (bufBase : Int) (buf : List MDValue) :
    List MDValue × Status :=
  match validateArgs a.shape start count step with
  | .err e => (buf, .err e)
  | .ok =>
      ((allIndices count).foldl
        (fun b idx =>
          setI b (bufBase + bufOffsetZ bufStride idx)
            (convertValue a.dtype bufDT
              (getI a.storage (a.base + srcOffsets start step a.strides idx)))) buf,
       .ok)

/-- Modelled from the spec: the strided Write operation (section 4.3),
symmetric to `mdReadRun`: validate everything first, then iterate the index
space of `count` in row-major order and deposit each buffer element —
converted in-flight into the array element type — at its strided source
offset; the array is returned untouched on a validation failure. -/
def mdWriteRun (a : MDArrayS) (start : List Int) (count : List Nat) (step : List Int)
    (bufStride : List Int) (bufDT : EDT) (bufBase : Int) (buf : List MDValue) :
    MDArrayS × Status :=
  match validateArgs a.shape start count step with
  | .err e => (a, .err e)
  | .ok =>
      (⟨a.aname, a.shape, a.dtype, a.base, a.strides,
        (allIndices count).foldl
          (fun st idx =>
            setI st (a.base + srcOffsets start step a.strides idx)
              (convertValue bufDT a.dtype
                (getI buf (bufBase + bufOffsetZ bufStride idx)))) a.storage⟩,
       .ok)

/-- List of `n` zero start indices (the default `arrayStartIdx`). -/
def zerosI (n : Nat) : List Int := List.replicate n 0

/-- List of `n` unit steps (the default `arrayStep`). -/
def onesI (n : Nat) : List Int := List.replicate n 1

/-- Modelled from the spec: a full-extent Read with a caller-chosen buffer
stride into a freshly allocated flat buffer of `prod(shape)` elements in
the array's own type (the `Read(buffer_stride=...)` entry point of the
tests). -/
def readFullStride (a : MDArrayS) (bufStride : List Int) : List MDValue × Status :=
  mdReadRun a (zerosI a.shape.length) a.shape (onesI a.shape.length) bufStride a.dtype 0
    (List.replicate (listProd a.shape) defaultElem)

/-- Modelled from the spec: `ReadAsArray` / default `Read` (section 4.3):
full extent, row-major unit-stride buffer layout, native element type. -/
def readAsArrayFlat (a : MDArrayS) : List MDValue × Status :=
  readFullStride a (rowMajorStrides a.shape)

/-- Modelled from the spec: full-extent Write from a row-major unit-stride
flat buffer of the given element type (the `Write`/`WriteArray` entry point
on a contiguous buffer). -/
def writeFull (a : MDArrayS) (bufDT : EDT) (buf : List MDValue) : MDArrayS × Status :=
  mdWriteRun a (zerosI a.shape.length) a.shape (onesI a.shape.length)
    (rowMajorStrides a.shape) bufDT 0 buf

/-- Modelled from the spec: a Dimension (section 3): a named, sized axis. -/
structure DimensionS where
  dname : String
  dsize : Nat
  deriving DecidableEq

/-- Modelled from the spec: `Group.CreateMDArray` for the in-memory driver:
a fresh array over the given dimensions with row-major backing storage
filled with the default element. -/
def createMDArray (nm : String) (dims : List DimensionS) (t : EDT) : MDArrayS :=
  ⟨nm, dims.map fun d => d.dsize, t, 0, rowMajorStrides (dims.map fun d => d.dsize),
   List.replicate (listProd (dims.map fun d => d.dsize)) defaultElem⟩

/-- Modelled from the spec: the numpy element-type codes the overlay adapter
(section 4.4) can receive, the variable-length unicode kind `npStr` being
the unsupported one exercised by the tests. -/
inductive NPType where
  | npInt8
  | npUInt8
  | npUInt16
  | npInt16
  | npUInt32
  | npInt32
  | npFloat32
  | npFloat64
  | npComplex64
  | npComplex128
  | npStr
  deriving DecidableEq

/-- Single-character numpy typecode of each numpy element type. -/
def npTypecode : NPType → Char
  | .npInt8 => 'b'
  | .npUInt8 => 'B'
  | .npUInt16 => 'H'
  | .npInt16 => 'h'
  | .npUInt32 => 'I'
  | .npInt32 => 'i'
  | .npFloat32 => 'f'
  | .npFloat64 => 'd'
  | .npComplex64 => 'F'
  | .npComplex128 => 'D'
  | .npStr => 'U'

/-- Modelled from the spec: the fixed-width native kind backing each numpy
element type, `none` for the variable-length text kind (section 4.4: only
fixed-width element encodings are supported). -/
def npToGDT : NPType → Option GDALDataType
  | .npInt8 => some .GDT_Int8
  | .npUInt8 => some .GDT_Byte
  | .npUInt16 => some .GDT_UInt16
  | .npInt16 => some .GDT_Int16
  | .npUInt32 => some .GDT_UInt32
  | .npInt32 => some .GDT_Int32
  | .npFloat32 => some .GDT_Float32
  | .npFloat64 => some .GDT_Float64
  | .npComplex64 => some .GDT_CFloat32
  | .npComplex128 => some .GDT_CFloat64
  | .npStr => none

/-- Modelled from the spec: an externally-owned numpy buffer view
(section 4.4): shape, element type, element offset of the view's origin
inside the flat buffer, per-axis element strides (possibly negative for
reversed views), and the flat buffer contents. -/
structure NPView where
  vshape : List Nat
  vtype : NPType
  vbase : Int
  vstrides : List Int
  vdata : List MDValue
  deriving DecidableEq

/-- Logical element of a numpy view at a multi-index: the flat buffer entry
at the view's base offset plus the strided offset of the index. -/
def viewElem (v : NPView) (idx : List Nat) : MDValue :=
  getI v.vdata (v.vbase + bufOffsetZ v.vstrides idx)

/-- Modelled from the spec: a Group (section 3): a named namespace mapping
array names to MDArrays (the dimension and child-group tables play no role
in the claims and are omitted). -/
structure GroupS where
  gname : String
  arrays : List (String × MDArrayS)
  deriving DecidableEq

/-- Modelled from the spec: `Group.OpenMDArray(name)` (section 4.2): lookup
by name; `none` models the NotFound failure. -/
def GroupS.openMDArray (g : GroupS) (nm : String) : Option MDArrayS :=
  (g.arrays.find? fun p => decide (p.1 = nm)).map fun p => p.2

/-- Modelled from the spec: a Dataset owning its root Group (section 3). -/
structure DatasetS where
  root : GroupS
  deriving DecidableEq

/-- Modelled from the spec: `Dataset.GetRootGroup`. -/
def DatasetS.getRootGroup (d : DatasetS) : GroupS := d.root

/-- Modelled from the spec: the zero-copy overlay MDArray over an external
buffer view (section 4.4): shape, base offset and strides are the view's
own, and the backing storage is the externally-owned flat buffer itself. -/
def overlayMDArray (v : NPView) (t : GDALDataType) : MDArrayS :=
  ⟨"array", v.vshape, .primEDT t, v.vbase, v.vstrides, v.vdata⟩

/-- Result of constructing an overlay dataset: the dataset, or an error kind
with its message. -/
inductive OpenResult where
  | opened (d : DatasetS)
  | failed (e : ErrKind) (msg : String)
  deriving DecidableEq

/-- The failure message the adapter emits for an unsupported numpy typecode,
exactly as the test suite expects it (a backquote before the code and an
apostrophe after it). -/
def typecodeMsg (c : Char) : String :=
  "Unable to access numpy arrays of typecode `" ++ String.singleton c ++
    String.singleton (Char.ofNat 39)

/-- Modelled from the spec: `OpenMultiDimensionalNumPyArray` (section 4.4):
a variable-length text element type is rejected with NotSupported and the
typecode message; any fixed-width type yields a dataset whose root group
exposes the wrapped buffer as the single MDArray named "array". -/
def openMultiDimensionalNumPyArray (v : NPView) : OpenResult :=
  match npToGDT v.vtype with
  | none => .failed .NotSupported (typecodeMsg (npTypecode v.vtype))
  | some t => .opened ⟨⟨"/", [("array", overlayMDArray v t)]⟩⟩

/-- Modelled from the spec: `WriteArray` from a numpy buffer view
(section 4.3: a thin layer computing the buffer strides from the view —
possibly negative — and delegating to Write). -/
def writeArrayNP (a : MDArrayS) (v : NPView) : MDArrayS × Status :=
  match npToGDT v.vtype with
  | none => (a, .err .NotSupported)
  | some t =>
      mdWriteRun a (zerosI a.shape.length) a.shape (onesI a.shape.length)
        v.vstrides (.primEDT t) v.vbase v.vdata

/-- Two folds agree when their step functions agree on every member of the
list. -/
theorem foldl_ext_mem {α β : Type} (f g : β → α → β) (l : List α)
    (h : ∀ b, ∀ x ∈ l, f b x = g b x) : ∀ b, l.foldl f b = l.foldl g b := by
  induction l with
  | nil => intro b; rfl
  | cons x xs ih =>
    intro b
    rw [List.foldl_cons, List.foldl_cons, h b x (List.mem_cons_self x xs)]
    exact ih (fun b' y hy => h b' y (List.mem_cons_of_mem x hy)) _

/-- Fold that deposits, for each element of `l`, its value at its position
in a flat buffer: the abstract shape of the strided copy engine's inner
loop. -/
def natFoldSet {α ι : Type} (l : List ι) (pos : ι → Nat) (f : ι → α) (buf : List α) : List α :=
  l.foldl (fun b i => b.set (pos i) (f i)) buf

/-- Depositing never changes the buffer's length. -/
theorem natFoldSet_length {α ι : Type} (pos : ι → Nat) (f : ι → α) :
    ∀ (l : List ι) (buf : List α), (natFoldSet l pos f buf).length = buf.length := by
  intro l
  induction l with
  | nil => intro buf; rfl
  | cons x xs ih =>
    intro buf
    show (natFoldSet xs pos f (buf.set (pos x) (f x))).length = buf.length
    rw [ih, List.length_set]

/-- A buffer position no element of the list maps to keeps its initial
content. -/
theorem natFoldSet_getElem?_of_ne {α ι : Type} (pos : ι → Nat) (f : ι → α) (p : Nat) :
    ∀ (l : List ι) (buf : List α), (∀ i ∈ l, pos i ≠ p) →
      (natFoldSet l pos f buf)[p]? = buf[p]? := by
  intro l
  induction l with
  | nil => intro buf _; rfl
  | cons x xs ih =>
    intro buf h
    show (natFoldSet xs pos f (buf.set (pos x) (f x)))[p]? = buf[p]?
    rw [ih _ (fun i hi => h i (List.mem_cons_of_mem x hi)),
      List.getElem?_set_ne (h x (List.mem_cons_self x xs))]

/-- A buffer position some element maps to ends up holding that element's
value, provided every colliding element carries the same value. -/
theorem natFoldSet_getElem?_of_mem {α ι : Type} (pos : ι → Nat) (f : ι → α) :
    ∀ (l : List ι) (buf : List α) (i0 : ι), i0 ∈ l →
      (∀ j ∈ l, pos j = pos i0 → f j = f i0) → pos i0 < buf.length →
      (natFoldSet l pos f buf)[pos i0]? = some (f i0) := by
  intro l
  induction l with
  | nil => intro _ _ h; cases h
  | cons x xs ih =>
    intro buf i0 hmem hcol hlt
    show (natFoldSet xs pos f (buf.set (pos x) (f x)))[pos i0]? = some (f i0)
    by_cases hx : i0 ∈ xs
    · exact ih _ i0 hx (fun j hj hpj => hcol j (List.mem_cons_of_mem x hj) hpj)
        (by rw [List.length_set]; exact hlt)
    · have hi0 : i0 = x := by
        rcases List.mem_cons.mp hmem with h | h
        · exact h
        · exact absurd h hx
      subst hi0
      by_cases hex : ∃ j ∈ xs, pos j = pos i0
      · obtain ⟨j, hj, hpj⟩ := hex
        have hfj : f j = f i0 := hcol j (List.mem_cons_of_mem i0 hj) hpj
        have hkey := ih (buf.set (pos i0) (f i0)) j hj
          (fun k hk hpk => by
            rw [hcol k (List.mem_cons_of_mem i0 hk) (hpk.trans hpj), hfj])
          (by rw [List.length_set, hpj]; exact hlt)
        rw [hpj, hfj] at hkey
        exact hkey
      · push_neg at hex
        rw [natFoldSet_getElem?_of_ne pos f (pos i0) xs _ hex,
          List.getElem?_set_self hlt]

/-- Enumerating `n` outer blocks of `P` consecutive naturals yields
`range (n * P)`. -/
theorem range_mul_flatMap (n P : Nat) :
    List.range (n * P) = (List.range n).flatMap fun i => (List.range P).map fun j => i * P + j := by
  induction n with
  | zero => simp
  | succ m ih =>
    rw [Nat.succ_mul, List.range_add, ih, List.range_succ, List.flatMap_append,
      List.flatMap_singleton]

/-- The row-major rank enumerates the row-major index list as
`0, 1, …, prod-1`: ranking is a bijection onto the initial segment and the
enumeration visits ranks in increasing order. -/
theorem allIndices_map_rmRank :
    ∀ dims : List Nat, (allIndices dims).map (rmRank dims) = List.range (listProd dims) := by
  intro dims
  induction dims with
  | nil => rfl
  | cons d ds ih =>
    show ((List.range d).flatMap fun i => (allIndices ds).map fun is => i :: is).map
        (rmRank (d :: ds)) = List.range (d * listProd ds)
    rw [List.map_flatMap, range_mul_flatMap d (listProd ds)]
    congr 1
    funext i
    show ((allIndices ds).map fun is => i :: is).map (rmRank (d :: ds))
        = (List.range (listProd ds)).map fun j => i * listProd ds + j
    rw [List.map_map, ← ih, List.map_map]
    rfl

/-- Every multi-index the enumeration produces has the shape's rank. -/
theorem length_of_mem_allIndices :
    ∀ (dims : List Nat) (idx : List Nat), idx ∈ allIndices dims → idx.length = dims.length := by
  intro dims
  induction dims with
  | nil =>
    intro idx h
    simp only [allIndices, List.mem_singleton] at h
    subst h
    rfl
  | cons d ds ih =>
    intro idx h
    simp only [allIndices, List.mem_flatMap, List.mem_map] at h
    obtain ⟨i, _, is, his, rfl⟩ := h
    simp [ih is his]

/-- A shape with a zero-sized dimension has an empty index space. -/
theorem allIndices_of_zero_mem :
    ∀ dims : List Nat, 0 ∈ dims → allIndices dims = [] := by
  intro dims
  induction dims with
  | nil => intro h; cases h
  | cons d ds ih =>
    intro h
    rcases List.mem_cons.mp h with h0 | h0
    · subst h0
      show (List.range 0).flatMap _ = []
      rw [List.range_zero]
      rfl
    · show (List.range d).flatMap (fun i => (allIndices ds).map fun is => i :: is) = []
      rw [ih h0]
      exact List.flatMap_eq_nil_iff.mpr fun _ _ => rfl

/-- Reading every position of a list back in order reproduces the list. -/
theorem map_getD_range {α : Type} (d : α) :
    ∀ st : List α, (List.range st.length).map (fun p => st.getD p d) = st := by
  intro st
  induction st with
  | nil => rfl
  | cons x xs ih =>
    rw [List.length_cons, List.range_succ_eq_map, List.map_cons, List.map_map]
    have h2 : (fun p => (x :: xs).getD p d) ∘ Nat.succ = fun p => xs.getD p d := by
      funext p
      exact List.getD_cons_succ
    rw [List.getD_cons_zero, h2, ih]

/-- Master buffer-filling lemma: when the position map enumerates exactly
`0, 1, …, buf.length - 1` in order, the deposit fold rewrites the whole
buffer into the per-element values, in enumeration order. -/
theorem natFoldSet_perm {α ι : Type} (pos : ι → Nat) (f : ι → α) (l : List ι) (buf : List α)
    (h : l.map pos = List.range buf.length) : natFoldSet l pos f buf = l.map f := by
  have hlen : l.length = buf.length := by
    have h1 := congrArg List.length h
    simpa using h1
  have hinj : ∀ x ∈ l, ∀ y ∈ l, pos x = pos y → x = y := by
    have hnd : (l.map pos).Nodup := by rw [h]; exact List.nodup_range _
    intro x hx y hy hxy
    exact List.inj_on_of_nodup_map hnd hx hy hxy
  apply List.ext_getElem?
  intro p
  by_cases hp : p < buf.length
  · have hpl : p < l.length := by rw [hlen]; exact hp
    have hmem : l[p] ∈ l := List.getElem_mem hpl
    have hpos : pos l[p] = p := by
      have h1 : (l.map pos)[p]? = some p := by rw [h]; exact List.getElem?_range hp
      rw [List.getElem?_map, List.getElem?_eq_getElem hpl] at h1
      exact Option.some.inj h1
    have hcol : ∀ j ∈ l, pos j = pos l[p] → f j = f l[p] := by
      intro j hj hpj
      rw [hinj j hj l[p] hmem hpj]
    have hkey := natFoldSet_getElem?_of_mem pos f l buf l[p] hmem hcol (by rw [hpos]; exact hp)
    rw [hpos] at hkey
    rw [hkey, List.getElem?_map, List.getElem?_eq_getElem hpl]
    rfl
  · have h1 : (natFoldSet l pos f buf)[p]? = none := by
      apply List.getElem?_eq_none
      rw [natFoldSet_length]
      omega
    have h2 : (l.map f)[p]? = none := by
      apply List.getElem?_eq_none
      rw [List.length_map, hlen]
      omega
    rw [h1, h2]

/-- The buffer offset under row-major strides is exactly the row-major
rank. -/
theorem bufOffsetZ_rowMajor :
    ∀ (dims idx : List Nat), idx.length = dims.length →
      bufOffsetZ (rowMajorStrides dims) idx = ((rmRank dims idx : Nat) : Int) := by
  intro dims
  induction dims with
  | nil =>
    intro idx h
    have hidx : idx = [] := List.length_eq_zero.mp h
    subst hidx
    rfl
  | cons d ds ih =>
    intro idx h
    cases idx with
    | nil => simp at h
    | cons i is =>
      show (i : Int) * ((listProd ds : Nat) : Int) + bufOffsetZ (rowMajorStrides ds) is
          = ((i * listProd ds + rmRank ds is : Nat) : Int)
      rw [ih is (by simpa using h)]
      push_cast
      ring

/-- With zero start indices and unit steps the source offset reduces to the
plain strided buffer offset of the multi-index. -/
theorem srcOffsets_zero_one :
    ∀ (idx : List Nat) (strides : List Int),
      srcOffsets (zerosI idx.length) (onesI idx.length) strides idx = bufOffsetZ strides idx := by
  intro idx
  induction idx with
  | nil => intro strides; cases strides <;> rfl
  | cons i is ih =>
    intro strides
    cases strides with
    | nil => rfl
    | cons r rs =>
      show (0 + (i : Int) * 1) * r + srcOffsets (zerosI is.length) (onesI is.length) rs is
          = (i : Int) * r + bufOffsetZ rs is
      rw [ih rs]
      ring_nf

/-- Signed lookup at a natural offset is the plain positional lookup. -/
theorem getI_natCast (l : List MDValue) (n : Nat) :
    getI l ((n : Nat) : Int) = l.getD n defaultElem := by
  unfold getI
  rw [if_pos (Int.natCast_nonneg n), Int.toNat_natCast]

/-- Signed update at a natural offset is the plain positional update. -/
theorem setI_natCast (l : List MDValue) (n : Nat) (v : MDValue) :
    setI l ((n : Nat) : Int) v = l.set n v := by
  unfold setI
  rw [if_pos (Int.natCast_nonneg n), Int.toNat_natCast]

/-- Clamping is the identity on exactly-representable values. -/
theorem clampComp_id (t : GDALDataType) (v : Int) (h : inIntRange t v = true) :
    clampComp t v = v := by
  unfold inIntRange at h
  rw [Bool.and_eq_true, decide_eq_true_eq, decide_eq_true_eq] at h
  unfold clampComp
  rw [if_neg (by omega), if_neg (by omega)]

/-- Zero is exactly representable in every primitive kind. -/
theorem inIntRange_zero (t : GDALDataType) : inIntRange t 0 = true := by
  cases t <;> decide

/-- Conversion into a primitive kind is the identity on a value well formed
for that kind, whatever the source type descriptor. -/
theorem convertValue_id (s : EDT) (t : GDALDataType) (v : MDValue)
    (h : wellFormedV t v = true) : convertValue s (.primEDT t) v = v := by
  cases v with
  | record fs => exact absurd h (by simp [wellFormedV])
  | prim re im =>
    unfold wellFormedV at h
    rw [Bool.and_eq_true] at h
    obtain ⟨hre, him⟩ := h
    show MDValue.prim (clampComp t re) (if isComplexDT t then clampComp t im else 0)
        = MDValue.prim re im
    rw [clampComp_id t re hre]
    cases hcc : isComplexDT t
    · rw [hcc] at him
      have him0 : im = 0 := by simpa using him
      subst him0
      simp [hcc]
    · rw [hcc] at him
      have himr : inIntRange t im = true := by simpa using him
      simp [hcc, clampComp_id t im himr]

/-- A real scalar in range is a well-formed primitive value of any kind. -/
theorem wellFormedV_prim_zero (t : GDALDataType) (v : Int) (h : inIntRange t v = true) :
    wellFormedV t (.prim v 0) = true := by
  unfold wellFormedV
  rw [Bool.and_eq_true]
  refine ⟨h, ?_⟩
  by_cases hc : isComplexDT t = true
  · rw [if_pos hc]
    exact inIntRange_zero t
  · rw [if_neg hc]
    exact decide_eq_true rfl

/-- A full-extent unit-step transfer along one dimension always validates. -/
theorem dimOK_full (sz : Nat) : dimOK sz 0 sz 1 = true := by
  unfold dimOK
  rcases sz with _ | m
  · simp
  · rw [if_neg (by omega)]
    simp only [Bool.and_eq_true, decide_eq_true_eq]
    refine ⟨⟨⟨by omega, by push_cast; omega⟩, by push_cast; omega⟩, by push_cast; omega⟩

/-- Full-extent unit-step transfers validate along every dimension. -/
theorem allDimsOK_full :
    ∀ shape : List Nat,
      allDimsOK shape (zerosI shape.length) shape (onesI shape.length) = true := by
  intro shape
  induction shape with
  | nil => rfl
  | cons d ds ih =>
    show (dimOK d 0 d 1 && allDimsOK ds (zerosI ds.length) ds (onesI ds.length)) = true
    rw [dimOK_full, ih]
    rfl

/-- A full-extent default read/write passes the argument validation. -/
theorem validate_full (shape : List Nat) :
    validateArgs shape (zerosI shape.length) shape (onesI shape.length) = .ok := by
  unfold validateArgs
  rw [if_pos (by unfold zerosI onesI; simp), if_pos (allDimsOK_full shape)]

/-- One out-of-bounds dimension makes the whole per-dimension validation
fail. -/
theorem allDimsOK_false_of_dim :
    ∀ (shape : List Nat) (start : List Int) (count : List Nat) (step : List Int),
      start.length = shape.length → count.length = shape.length → step.length = shape.length →
      ∀ i, i < shape.length →
        dimOK (shape.getD i 0) (start.getD i 0) (count.getD i 0) (step.getD i 0) = false →
        allDimsOK shape start count step = false := by
  intro shape
  induction shape with
  | nil => intro start count step _ _ _ i hi; simp at hi
  | cons sz szs ih =>
    intro start count step h1 h2 h3 i hi hbad
    cases start with
    | nil => simp at h1
    | cons s ss =>
      cases count with
      | nil => simp at h2
      | cons c cs =>
        cases step with
        | nil => simp at h3
        | cons t ts =>
          show (dimOK sz s c t && allDimsOK szs ss cs ts) = false
          cases i with
          | zero =>
            simp only [List.getD_cons_zero] at hbad
            rw [hbad]
            rfl
          | succ j =>
            simp only [List.getD_cons_succ] at hbad
            rw [ih ss cs ts (by simpa using h1) (by simpa using h2) (by simpa using h3) j
              (by simpa using hi) hbad]
            exact Bool.and_false _

/-- Evaluation of a full-extent strided read: the engine's fold is the
deposit fold over the row-major index space, positions being the strided
buffer offsets and values the converted source elements. -/
theorem readFullStride_eval (nm : String) (shape : List Nat) (adt : EDT) (base : Int)
    (strides : List Int) (st : List MDValue) (bufStride : List Int)
    (hpos : ∀ idx ∈ allIndices shape, 0 ≤ bufOffsetZ bufStride idx) :
    readFullStride ⟨nm, shape, adt, base, strides, st⟩ bufStride
      = (natFoldSet (allIndices shape) (fun idx => (bufOffsetZ bufStride idx).toNat)
          (fun idx => convertValue adt adt (getI st (base + bufOffsetZ strides idx)))
          (List.replicate (listProd shape) defaultElem), .ok) := by
  unfold readFullStride mdReadRun
  dsimp only
  simp only [validate_full]
  refine congrArg (fun z => (z, Status.ok)) ?_
  unfold natFoldSet
  apply foldl_ext_mem
  intro b idx hidx
  dsimp only
  have hlen : idx.length = shape.length := length_of_mem_allIndices shape idx hidx
  rw [zero_add, ← hlen, srcOffsets_zero_one]
  unfold setI
  rw [if_pos (hpos idx hidx)]

/-- Evaluation of a full-extent default-layout read: the result buffer is
the row-major enumeration of the converted source elements. -/
theorem readAsArrayFlat_eval (nm : String) (shape : List Nat) (adt : EDT) (base : Int)
    (strides : List Int) (st : List MDValue) :
    readAsArrayFlat ⟨nm, shape, adt, base, strides, st⟩
      = ((allIndices shape).map fun idx =>
          convertValue adt adt (getI st (base + bufOffsetZ strides idx)), .ok) := by
  unfold readAsArrayFlat
  dsimp only
  rw [readFullStride_eval nm shape adt base strides st (rowMajorStrides shape)
    (fun idx hidx => by
      rw [bufOffsetZ_rowMajor shape idx (length_of_mem_allIndices shape idx hidx)]
      exact Int.natCast_nonneg _)]
  refine congrArg (fun z => (z, Status.ok)) ?_
  have hfold : natFoldSet (allIndices shape)
      (fun idx => (bufOffsetZ (rowMajorStrides shape) idx).toNat)
      (fun idx => convertValue adt adt (getI st (base + bufOffsetZ strides idx)))
      (List.replicate (listProd shape) defaultElem)
      = natFoldSet (allIndices shape) (rmRank shape)
        (fun idx => convertValue adt adt (getI st (base + bufOffsetZ strides idx)))
        (List.replicate (listProd shape) defaultElem) := by
    unfold natFoldSet
    apply foldl_ext_mem
    intro b idx hidx
    dsimp only
    rw [bufOffsetZ_rowMajor shape idx (length_of_mem_allIndices shape idx hidx),
      Int.toNat_natCast]
  rw [hfold]
  exact natFoldSet_perm _ _ _ _
    (by rw [List.length_replicate]; exact allIndices_map_rmRank shape)

/-- A default-layout read of a standard (base 0, row-major) array whose
stored values convert to themselves reproduces the storage exactly. -/
theorem readAsArrayFlat_std (nm : String) (shape : List Nat) (adt : EDT) (st : List MDValue)
    (hst : st.length = listProd shape)
    (hconv : ∀ v ∈ st, convertValue adt adt v = v) :
    readAsArrayFlat ⟨nm, shape, adt, 0, rowMajorStrides shape, st⟩ = (st, .ok) := by
  rw [readAsArrayFlat_eval]
  refine congrArg (fun z => (z, Status.ok)) ?_
  have h1 : ∀ idx ∈ allIndices shape,
      convertValue adt adt (getI st ((0 : Int) + bufOffsetZ (rowMajorStrides shape) idx))
        = st.getD (rmRank shape idx) defaultElem := by
    intro idx hidx
    rw [zero_add, bufOffsetZ_rowMajor shape idx (length_of_mem_allIndices shape idx hidx),
      getI_natCast]
    have hrank : rmRank shape idx < listProd shape := by
      have hm : rmRank shape idx ∈ List.range (listProd shape) := by
        rw [← allIndices_map_rmRank shape]
        exact List.mem_map.mpr ⟨idx, hidx, rfl⟩
      exact List.mem_range.mp hm
    have hlt : rmRank shape idx < st.length := by rw [hst]; exact hrank
    rw [List.getD_eq_getElem st defaultElem hlt]
    exact hconv _ (List.getElem_mem hlt)
  rw [List.map_congr_left h1]
  have h2 : (allIndices shape).map (fun idx => st.getD (rmRank shape idx) defaultElem)
      = ((allIndices shape).map (rmRank shape)).map (fun p => st.getD p defaultElem) := by
    rw [List.map_map]
    rfl
  rw [h2, allIndices_map_rmRank, ← hst, map_getD_range]

/-- Evaluation of a full-extent default-layout write into a standard
array: the new storage is the row-major enumeration of the converted
buffer elements. -/
theorem writeFull_eval (nm : String) (shape : List Nat) (adt bufDT : EDT)
    (st buf : List MDValue) (hst : st.length = listProd shape) :
    writeFull ⟨nm, shape, adt, 0, rowMajorStrides shape, st⟩ bufDT buf
      = (⟨nm, shape, adt, 0, rowMajorStrides shape,
          (List.range (listProd shape)).map fun p =>
            convertValue bufDT adt (buf.getD p defaultElem)⟩, .ok) := by
  unfold writeFull mdWriteRun
  dsimp only
  simp only [validate_full]
  refine congrArg (fun z => (MDArrayS.mk nm shape adt 0 (rowMajorStrides shape) z, Status.ok)) ?_
  have hfold : (allIndices shape).foldl
      (fun b idx =>
        setI b ((0 : Int) + srcOffsets (zerosI shape.length) (onesI shape.length)
            (rowMajorStrides shape) idx)
          (convertValue bufDT adt
            (getI buf ((0 : Int) + bufOffsetZ (rowMajorStrides shape) idx)))) st
      = natFoldSet (allIndices shape) (rmRank shape)
        (fun idx => convertValue bufDT adt (buf.getD (rmRank shape idx) defaultElem)) st := by
    unfold natFoldSet
    apply foldl_ext_mem
    intro b idx hidx
    dsimp only
    have hlen : idx.length = shape.length := length_of_mem_allIndices shape idx hidx
    rw [zero_add, zero_add, ← hlen, srcOffsets_zero_one,
      bufOffsetZ_rowMajor shape idx hlen, getI_natCast, setI_natCast]
  rw [hfold, natFoldSet_perm (rmRank shape) _ _ st (by rw [hst]; exact allIndices_map_rmRank shape)]
  have h2 : (allIndices shape).map
      (fun idx => convertValue bufDT adt (buf.getD (rmRank shape idx) defaultElem))
      = ((allIndices shape).map (rmRank shape)).map
        (fun p => convertValue bufDT adt (buf.getD p defaultElem)) := by
    rw [List.map_map]
    rfl
  rw [h2, allIndices_map_rmRank]

/-- A default-layout write whose buffer elements convert to themselves
replaces the storage by the buffer exactly. -/
theorem writeFull_std (nm : String) (shape : List Nat) (adt bufDT : EDT)
    (st buf : List MDValue) (hst : st.length = listProd shape)
    (hbuf : buf.length = listProd shape)
    (hconv : ∀ v ∈ buf, convertValue bufDT adt v = v) :
    writeFull ⟨nm, shape, adt, 0, rowMajorStrides shape, st⟩ bufDT buf
      = (⟨nm, shape, adt, 0, rowMajorStrides shape, buf⟩, .ok) := by
  rw [writeFull_eval nm shape adt bufDT st buf hst]
  refine congrArg (fun z => (MDArrayS.mk nm shape adt 0 (rowMajorStrides shape) z, Status.ok)) ?_
  have h1 : ∀ p ∈ List.range (listProd shape),
      convertValue bufDT adt (buf.getD p defaultElem) = buf.getD p defaultElem := by
    intro p hp
    have hlt : p < buf.length := by rw [hbuf]; exact List.mem_range.mp hp
    rw [List.getD_eq_getElem buf defaultElem hlt]
    exact hconv _ (List.getElem_mem hlt)
  rw [List.map_congr_left h1, ← hbuf, map_getD_range]

/-- The 2×3 byte test payload `[[1,2,3],[4,5,6]]` flattened row-major. -/
def byteFlat123456 : List MDValue :=
  [.prim 1 0, .prim 2 0, .prim 3 0, .prim 4 0, .prim 5 0, .prim 6 0]

/-- The fixed 2×3 byte MDArray holding `[[1,2,3],[4,5,6]]` that the test
suite builds via CreateMDArray + WriteArray. -/
def mdArray23 : MDArrayS :=
  ⟨"myarray", [2, 3], .primEDT .GDT_Byte, 0, rowMajorStrides [2, 3], byteFlat123456⟩

/-- A standard (base 0, row-major) two-dimensional MDArray over given
storage. -/
def mkStd2D (t : GDALDataType) (rows cols : Nat) (st : List MDValue) : MDArrayS :=
  ⟨"myarray", [rows, cols], .primEDT t, 0, rowMajorStrides [rows, cols], st⟩

/-- The numpy view `ar[::-1, ::-1]` of `[[1,2,3],[4,5,6]]` (both axes
flipped): origin at the last flat element, stride −3 along rows and −1
along columns. -/
def revView23 : NPView := ⟨[2, 3], .npUInt8, 5, [-3, -1], byteFlat123456⟩

/-- A 2×3 numpy buffer whose element type is the variable-length unicode
kind (typecode `U`). -/
def strView23 : NPView := ⟨[2, 3], .npStr, 0, [3, 1], byteFlat123456⟩

/-- The eleven native element types the multidimensional datatype test
iterates over. -/
def supportedMDTypes : List GDALDataType :=
  [.GDT_Byte, .GDT_Int16, .GDT_UInt16, .GDT_Int32, .GDT_UInt32, .GDT_Float32,
   .GDT_Float64, .GDT_CInt16, .GDT_CInt32, .GDT_CFloat32, .GDT_CFloat64]

/-- The compound type `x:int16@0, y:int32@4` over 8-byte elements built by
the compound-datatype test. -/
def compoundXY : EDT := .compoundEDT "mytype" 8 [⟨"x", 0, .GDT_Int16⟩, ⟨"y", 4, .GDT_Int32⟩]

/-- The two records `(32767,1000000)` and `(-32768,-1000000)` the
compound-datatype test writes. -/
def recBuf : List MDValue := [.record [32767, 1000000], .record [-32768, -1000000]]

/-- The length-2 compound MDArray of the compound-datatype test, freshly
created. -/
def compoundArr0 : MDArrayS := createMDArray "myarray" [⟨"dim0", 2⟩] compoundXY

/-- The 2×3 byte MDArray after `WriteArray` of the reversed view. -/
def negWrittenArr : MDArrayS :=
  (writeArrayNP (createMDArray "myarray" [⟨"dim0", 2⟩, ⟨"dim1", 3⟩] (.primEDT .GDT_Byte))
    revView23).1

/-- The message the claim under review expects for the typecode-`U`
rejection (the word "numpy" missing before "arrays"). -/
def claimedTypecodeMsgC6 : String :=
  "Unable to access arrays of typecode `U" ++ String.singleton (Char.ofNat 39)

/-- A strided buffer offset over nonnegative strides is nonnegative. -/
theorem bufOffsetZ_nonneg :
    ∀ (ss : List Int) (idx : List Nat), (∀ s ∈ ss, 0 ≤ s) → 0 ≤ bufOffsetZ ss idx := by
  intro ss
  induction ss with
  | nil => intro idx _; cases idx <;> simp [bufOffsetZ]
  | cons s rest ih =>
    intro idx h
    cases idx with
    | nil => simp [bufOffsetZ]
    | cons i is =>
      show 0 ≤ (i : Int) * s + bufOffsetZ rest is
      have ha : 0 ≤ (i : Int) * s :=
        mul_nonneg (Int.natCast_nonneg i) (h s (List.mem_cons_self s rest))
      have hb : 0 ≤ bufOffsetZ rest is := ih is fun x hx => h x (List.mem_cons_of_mem s hx)
      omega

/-- Row-major flat positions decompose uniquely below the row bound. -/
theorem rowMajor_pos_unique (cols i j r c : Nat) (hj : j < cols) (hc : c < cols)
    (h : i * cols + j = r * cols + c) : i = r ∧ j = c := by
  have hcols : 0 < cols := lt_of_le_of_lt (Nat.zero_le j) hj
  have hj' : (i * cols + j) % cols = j := by
    rw [Nat.add_comm, Nat.add_mul_mod_self_right, Nat.mod_eq_of_lt hj]
  have hc' : (r * cols + c) % cols = c := by
    rw [Nat.add_comm, Nat.add_mul_mod_self_right, Nat.mod_eq_of_lt hc]
  have hjc : j = c := by rw [← hj', h, hc']
  subst hjc
  have hmul : i * cols = r * cols := by omega
  exact ⟨Nat.eq_of_mul_eq_mul_right hcols hmul, rfl⟩

/-- Column-major flat positions decompose uniquely below the column
bound. -/
theorem colMajor_pos_unique (rows i j r c : Nat) (hi : i < rows) (hr : r < rows)
    (h : i + j * rows = r + c * rows) : i = r ∧ j = c := by
  have hrows : 0 < rows := lt_of_le_of_lt (Nat.zero_le i) hi
  have h1 : (i + j * rows) % rows = i := by
    rw [Nat.add_mul_mod_self_right, Nat.mod_eq_of_lt hi]
  have h2 : (r + c * rows) % rows = r := by
    rw [Nat.add_mul_mod_self_right, Nat.mod_eq_of_lt hr]
  have hir : i = r := by rw [← h1, h, h2]
  subst hir
  have hmul : j * rows = c * rows := by omega
  exact ⟨rfl, Nat.eq_of_mul_eq_mul_right hrows hmul⟩

/-- A row-major flat position of an in-bounds 2-D index is in bounds. -/
theorem rowMajor_pos_lt (rows cols r c : Nat) (hr : r < rows) (hc : c < cols) :
    r * cols + c < rows * cols := by
  calc r * cols + c < r * cols + cols := by omega
  _ = (r + 1) * cols := by ring
  _ ≤ rows * cols := Nat.mul_le_mul_right cols (Nat.succ_le_of_lt hr)

/-- A column-major flat position of an in-bounds 2-D index is in bounds. -/
theorem colMajor_pos_lt (rows cols r c : Nat) (hr : r < rows) (hc : c < cols) :
    r + c * rows < rows * cols := by
  calc r + c * rows < rows + c * rows := by omega
  _ = (c + 1) * rows := by ring
  _ ≤ cols * rows := Nat.mul_le_mul_right rows (Nat.succ_le_of_lt hc)
  _ = rows * cols := Nat.mul_comm _ _

/-- An in-bounds 2-D index occurs in the row-major enumeration of a
two-dimensional shape. -/
theorem mem_allIndices_two_intro (rows cols r c : Nat) (hr : r < rows) (hc : c < cols) :
    [r, c] ∈ allIndices [rows, cols] := by
  show [r, c] ∈ (List.range rows).flatMap fun i => (allIndices [cols]).map fun is => i :: is
  refine List.mem_flatMap.mpr ⟨r, List.mem_range.mpr hr, ?_⟩
  refine List.mem_map.mpr ⟨[c], ?_, rfl⟩
  show [c] ∈ (List.range cols).flatMap fun j => (allIndices []).map fun is => j :: is
  refine List.mem_flatMap.mpr ⟨c, List.mem_range.mpr hc, ?_⟩
  exact List.mem_map.mpr ⟨[], List.mem_singleton.mpr rfl, rfl⟩

/-- Every member of the row-major enumeration of a two-dimensional shape is
an in-bounds 2-D index. -/
theorem mem_allIndices_two_elim (rows cols : Nat) (idx : List Nat)
    (h : idx ∈ allIndices [rows, cols]) : ∃ i j, i < rows ∧ j < cols ∧ idx = [i, j] := by
  have h' : idx ∈ (List.range rows).flatMap fun i => (allIndices [cols]).map fun is => i :: is := h
  rcases List.mem_flatMap.mp h' with ⟨i, hi, hmap⟩
  rcases List.mem_map.mp hmap with ⟨is, his, rfl⟩
  have his' : is ∈ (List.range cols).flatMap fun j => (allIndices []).map fun js => j :: js := his
  rcases List.mem_flatMap.mp his' with ⟨j, hj, hmap2⟩
  rcases List.mem_map.mp hmap2 with ⟨tl, htl, rfl⟩
  have htl' : tl = [] := List.mem_singleton.mp htl
  subst htl'
  exact ⟨i, j, List.mem_range.mp hi, List.mem_range.mp hj, rfl⟩

/-- C1: for every MDArray of any supported primitive element type and any
shape, writing a buffer of well-formed elements via the default-layout
WriteArray and then reading with the default (row-major, unit-stride)
buffer layout returns exactly the elements written, with both operations
succeeding. -/
theorem C1_write_read_roundtrip (t : GDALDataType) (dims : List DimensionS)
    (buf : List MDValue)
    (hlen : buf.length = listProd (dims.map fun d => d.dsize))
    (hwf : ∀ v ∈ buf, wellFormedV t v = true) :
    (writeFull (createMDArray "myarray" dims (.primEDT t)) (.primEDT t) buf).2 = .ok ∧
    readAsArrayFlat (writeFull (createMDArray "myarray" dims (.primEDT t))
        (.primEDT t) buf).1 = (buf, .ok) := by
  have hcv : ∀ v ∈ buf, convertValue (EDT.primEDT t) (EDT.primEDT t) v = v :=
    fun v hv => convertValue_id _ t v (hwf v hv)
  have hcm : createMDArray "myarray" dims (.primEDT t)
      = ⟨"myarray", dims.map fun d => d.dsize, .primEDT t, 0,
          rowMajorStrides (dims.map fun d => d.dsize),
          List.replicate (listProd (dims.map fun d => d.dsize)) defaultElem⟩ := rfl
  rw [hcm, writeFull_std "myarray" (dims.map fun d => d.dsize) (.primEDT t) (.primEDT t)
    (List.replicate (listProd (dims.map fun d => d.dsize)) defaultElem) buf
    (List.length_replicate _ _) hlen hcv]
  exact ⟨rfl, readAsArrayFlat_std "myarray" _ (.primEDT t) buf hlen hcv⟩

/-- C1 witness: the round trip at the concrete 2×3 byte array holding
`[[1,2,3],[4,5,6]]`. -/
theorem C1_witness :
    (writeFull (createMDArray "myarray" [⟨"dim0", 2⟩, ⟨"dim1", 3⟩] (.primEDT .GDT_Byte))
        (.primEDT .GDT_Byte) byteFlat123456).2 = .ok ∧
    readAsArrayFlat (writeFull (createMDArray "myarray" [⟨"dim0", 2⟩, ⟨"dim1", 3⟩]
        (.primEDT .GDT_Byte)) (.primEDT .GDT_Byte) byteFlat123456).1
      = (byteFlat123456, .ok) :=
  C1_write_read_roundtrip .GDT_Byte [⟨"dim0", 2⟩, ⟨"dim1", 3⟩] byteFlat123456
    (by decide) (by decide)

/-- C3: after writing the both-axes-reversed view of `[[1,2,3],[4,5,6]]`
into a fresh 2×3 byte MDArray, the write succeeds, the default-stride Read
yields `(6,5,4,3,2,1)`, Read with buffer stride `[1,2]` yields
`(6,3,5,2,4,1)`, and ReadAsArray reproduces the reversed logical array
(the view's elements in row-major order). -/
theorem C3_negative_stride_reversal :
    (writeArrayNP (createMDArray "myarray" [⟨"dim0", 2⟩, ⟨"dim1", 3⟩]
        (.primEDT .GDT_Byte)) revView23).2 = .ok ∧
    readAsArrayFlat negWrittenArr
      = ([.prim 6 0, .prim 5 0, .prim 4 0, .prim 3 0, .prim 2 0, .prim 1 0], .ok) ∧
    readFullStride negWrittenArr [1, 2]
      = ([.prim 6 0, .prim 3 0, .prim 5 0, .prim 2 0, .prim 4 0, .prim 1 0], .ok) ∧
    (readAsArrayFlat negWrittenArr).1 = (allIndices [2, 3]).map (viewElem revView23) := by
  decide

/-- C4: for every supported element type, ReadAsArray on the zero-copy
overlay dataset built over an externally-owned buffer view (of well-formed
values) succeeds and returns exactly the view's logical elements in
row-major order — negative-stride reversed views included, since the
view's base and strides are arbitrary. -/
theorem C4_overlay_equivalence (v : NPView) (t : GDALDataType)
    (ht : npToGDT v.vtype = some t)
    (hwf : ∀ idx ∈ allIndices v.vshape, wellFormedV t (viewElem v idx) = true) :
    openMultiDimensionalNumPyArray v
        = .opened ⟨⟨"/", [("array", overlayMDArray v t)]⟩⟩ ∧
    readAsArrayFlat (overlayMDArray v t)
        = ((allIndices v.vshape).map (viewElem v), .ok) := by
  constructor
  · unfold openMultiDimensionalNumPyArray
    rw [ht]
  · rw [show overlayMDArray v t
        = ⟨"array", v.vshape, .primEDT t, v.vbase, v.vstrides, v.vdata⟩ from rfl,
      readAsArrayFlat_eval "array" v.vshape (.primEDT t) v.vbase v.vstrides v.vdata]
    refine congrArg (fun z => (z, Status.ok)) ?_
    apply List.map_congr_left
    intro idx hidx
    exact convertValue_id _ t _ (hwf idx hidx)

/-- C4 witness: the overlay equivalence at the concrete negative-stride
reversed byte view of `[[1,2,3],[4,5,6]]`. -/
theorem C4_witness :
    openMultiDimensionalNumPyArray revView23
        = .opened ⟨⟨"/", [("array", overlayMDArray revView23 .GDT_Byte)]⟩⟩ ∧
    readAsArrayFlat (overlayMDArray revView23 .GDT_Byte)
        = ((allIndices revView23.vshape).map (viewElem revView23), .ok) :=
  C4_overlay_equivalence revView23 .GDT_Byte (by decide) (by decide)

/-- C5: the compound type `x:int16@0, y:int32@4` over 8-byte elements is
accepted by CreateCompound, reports total element size 8, and writing the
records `(32767,1000000)` and `(-32768,-1000000)` then reading back
reproduces both fields of both records exactly. -/
theorem C5_compound_layout_fidelity :
    createCompound "mytype" 8 [⟨"x", 0, .GDT_Int16⟩, ⟨"y", 4, .GDT_Int32⟩] = some compoundXY ∧
    compoundXY.size = 8 ∧
    (writeFull compoundArr0 compoundXY recBuf).2 = .ok ∧
    readAsArrayFlat (writeFull compoundArr0 compoundXY recBuf).1 = (recBuf, .ok) := by
  decide

/-- C6 counterexample: constructing an overlay over the variable-length
unicode buffer does fail with NotSupported, but the message the adapter
emits — the one the test suite expects verbatim — reads "numpy arrays",
not "arrays" as the claim states, so the claimed message text is not the
failure message. -/
theorem C6_counterexample :
    openMultiDimensionalNumPyArray strView23 = .failed .NotSupported (typecodeMsg 'U') ∧
    typecodeMsg 'U' ≠ claimedTypecodeMsgC6 := by
  constructor
  · rfl
  · decide

/-- C6 (amended): constructing an overlay array over a buffer whose
element encoding is the variable-length text typecode fails with
NotSupported, the failure message is "Unable to access numpy arrays of
typecode `U'" — containing the offending typecode — and no overlay dataset
is produced. -/
theorem C6_unsupported_typecode (v : NPView) (h : v.vtype = .npStr) :
    openMultiDimensionalNumPyArray v = .failed .NotSupported
        ("Unable to access numpy arrays of typecode `U" ++ String.singleton (Char.ofNat 39)) ∧
    ∀ d, openMultiDimensionalNumPyArray v ≠ .opened d := by
  have h1 : openMultiDimensionalNumPyArray v = .failed .NotSupported (typecodeMsg 'U') := by
    unfold openMultiDimensionalNumPyArray
    rw [h]
    rfl
  have h2 : typecodeMsg 'U'
      = "Unable to access numpy arrays of typecode `U" ++ String.singleton (Char.ofNat 39) := by
    decide
  refine ⟨by rw [h1, h2], ?_⟩
  intro d hd
  rw [h1] at hd
  exact OpenResult.noConfusion hd

/-- C6 witness: the rejection at the concrete typecode-`U` buffer view. -/
theorem C6_witness :
    openMultiDimensionalNumPyArray strView23 = .failed .NotSupported
        ("Unable to access numpy arrays of typecode `U" ++ String.singleton (Char.ofNat 39)) ∧
    ∀ d, openMultiDimensionalNumPyArray strView23 ≠ .opened d :=
  C6_unsupported_typecode strView23 (by decide)

/-- C7: any Read or Write whose start/count/step combination leaves a
dimension's bounds fails with OutOfRange before any byte moves: the
returned buffer and the returned array are exactly the ones passed in. -/
theorem C7_bounds_rejection (a : MDArrayS) (start : List Int) (count : List Nat)
    (step bufStride : List Int) (bufDT : EDT) (bufBase : Int) (buf : List MDValue)
    (h1 : start.length = a.shape.length) (h2 : count.length = a.shape.length)
    (h3 : step.length = a.shape.length)
    (i : Nat) (hi : i < a.shape.length)
    (hbad : dimOK (a.shape.getD i 0) (start.getD i 0) (count.getD i 0) (step.getD i 0) = false) :
    mdReadRun a start count step bufStride bufDT bufBase buf = (buf, .err .OutOfRange) ∧
    mdWriteRun a start count step bufStride bufDT bufBase buf = (a, .err .OutOfRange) := by
  have hv : validateArgs a.shape start count step = .err .OutOfRange := by
    unfold validateArgs
    rw [if_pos ⟨h1, h2, h3⟩, if_neg (by
      rw [allDimsOK_false_of_dim a.shape start count step h1 h2 h3 i hi hbad]
      exact Bool.false_ne_true)]
  constructor
  · unfold mdReadRun
    rw [hv]
  · unfold mdWriteRun
    rw [hv]

/-- C7 witness: a concrete read and write starting at column index 3 of a
2×3 array, rejected with OutOfRange and no side effect. -/
theorem C7_witness :
    mdReadRun mdArray23 [0, 3] [2, 1] [1, 1] [3, 1] (.primEDT .GDT_Byte) 0
        (List.replicate 6 defaultElem)
      = (List.replicate 6 defaultElem, .err .OutOfRange) ∧
    mdWriteRun mdArray23 [0, 3] [2, 1] [1, 1] [3, 1] (.primEDT .GDT_Byte) 0
        (List.replicate 6 defaultElem)
      = (mdArray23, .err .OutOfRange) :=
  C7_bounds_rejection mdArray23 [0, 3] [2, 1] [1, 1] [3, 1] (.primEDT .GDT_Byte) 0
    (List.replicate 6 defaultElem) (by decide) (by decide) (by decide) 1 (by decide) (by decide)

/-- C8: a Read or Write with a zero count along some dimension transfers
nothing — given the other arguments validate it succeeds and leaves the
array and the buffer exactly as passed — while an out-of-bounds dimension
elsewhere still makes it fail with OutOfRange despite the zero count. -/
theorem C8_zero_count_noop (a : MDArrayS) (start : List Int) (count : List Nat)
    (step bufStride : List Int) (bufDT : EDT) (bufBase : Int) (buf : List MDValue)
    (h1 : start.length = a.shape.length) (h2 : count.length = a.shape.length)
    (h3 : step.length = a.shape.length) (hzero : 0 ∈ count) :
    (allDimsOK a.shape start count step = true →
      mdWriteRun a start count step bufStride bufDT bufBase buf = (a, .ok) ∧
      mdReadRun a start count step bufStride bufDT bufBase buf = (buf, .ok)) ∧
    (allDimsOK a.shape start count step = false →
      mdWriteRun a start count step bufStride bufDT bufBase buf = (a, .err .OutOfRange) ∧
      mdReadRun a start count step bufStride bufDT bufBase buf = (buf, .err .OutOfRange)) := by
  constructor
  · intro hok
    have hv : validateArgs a.shape start count step = .ok := by
      unfold validateArgs
      rw [if_pos ⟨h1, h2, h3⟩, if_pos hok]
    have hnil : allIndices count = [] := allIndices_of_zero_mem count hzero
    constructor
    · unfold mdWriteRun
      rw [hv, hnil]
      rfl
    · unfold mdReadRun
      rw [hv, hnil]
      rfl
  · intro hbadall
    have hv : validateArgs a.shape start count step = .err .OutOfRange := by
      unfold validateArgs
      rw [if_pos ⟨h1, h2, h3⟩, if_neg (by rw [hbadall]; exact Bool.false_ne_true)]
    constructor
    · unfold mdWriteRun
      rw [hv]
    · unfold mdReadRun
      rw [hv]

/-- C8 witness: a zero-count write and read on the 2×3 array with all other
arguments valid succeed and change nothing. -/
theorem C8_witness :
    mdWriteRun mdArray23 [0, 0] [0, 3] [1, 1] [3, 1] (.primEDT .GDT_Byte) 0 byteFlat123456
      = (mdArray23, .ok) ∧
    mdReadRun mdArray23 [0, 0] [0, 3] [1, 1] [3, 1] (.primEDT .GDT_Byte) 0 byteFlat123456
      = (byteFlat123456, .ok) :=
  (C8_zero_count_noop mdArray23 [0, 0] [0, 3] [1, 1] [3, 1] (.primEDT .GDT_Byte) 0
    byteFlat123456 (by decide) (by decide) (by decide) (by decide)).1 (by decide)

/-- C9: for each of the eleven supported native element types, writing a
buffer of unsigned 16-bit values that are exactly representable in the
native type via WriteArray and reading back via ReadAsArray in the native
type yields exactly the values written: the in-flight conversion of the
strided copy preserves exactly-representable values through the
write-then-read round trip even though the buffer type differs from the
array's native type. -/
theorem C9_datatype_roundtrip (t : GDALDataType) (ht : t ∈ supportedMDTypes)
    (vals : List Int)
    (hrange : ∀ x ∈ vals, inIntRange .GDT_UInt16 x = true ∧ inIntRange t x = true) :
    (writeFull (createMDArray "myarray" [⟨"dim0", vals.length⟩] (.primEDT t))
        (.primEDT .GDT_UInt16) (vals.map fun x => MDValue.prim x 0)).2 = .ok ∧
    readAsArrayFlat (writeFull (createMDArray "myarray" [⟨"dim0", vals.length⟩]
        (.primEDT t)) (.primEDT .GDT_UInt16) (vals.map fun x => MDValue.prim x 0)).1
      = (vals.map fun x => MDValue.prim x 0, .ok) := by
  have hwfbuf : ∀ v ∈ vals.map (fun x => MDValue.prim x 0), wellFormedV t v = true := by
    intro v hv
    obtain ⟨x, hx, rfl⟩ := List.mem_map.mp hv
    exact wellFormedV_prim_zero t x (hrange x hx).2
  have hlen : (vals.map fun x => MDValue.prim x 0).length = listProd [vals.length] := by
    rw [List.length_map]
    show vals.length = vals.length * listProd []
    rw [show listProd [] = 1 from rfl, Nat.mul_one]
  have hcm : createMDArray "myarray" [⟨"dim0", vals.length⟩] (.primEDT t)
      = ⟨"myarray", [vals.length], .primEDT t, 0, rowMajorStrides [vals.length],
          List.replicate (listProd [vals.length]) defaultElem⟩ := rfl
  rw [hcm, writeFull_std "myarray" [vals.length] (.primEDT t) (.primEDT .GDT_UInt16)
    (List.replicate (listProd [vals.length]) defaultElem) (vals.map fun x => MDValue.prim x 0)
    (List.length_replicate _ _) hlen (fun v hv => convertValue_id _ t v (hwfbuf v hv))]
  exact ⟨rfl, readAsArrayFlat_std "myarray" [vals.length] (.primEDT t) _ hlen
    (fun v hv => convertValue_id _ t v (hwfbuf v hv))⟩

/-- C9 witness: the cross-typed round trip of the test's uint16 payload
`[0, 1]` through a complex-integer array. -/
theorem C9_witness :
    (writeFull (createMDArray "myarray" [⟨"dim0", ([(0 : Int), 1]).length⟩]
        (.primEDT .GDT_CInt16)) (.primEDT .GDT_UInt16)
        (([(0 : Int), 1]).map fun x => MDValue.prim x 0)).2 = .ok ∧
    readAsArrayFlat (writeFull (createMDArray "myarray" [⟨"dim0", ([(0 : Int), 1]).length⟩]
        (.primEDT .GDT_CInt16)) (.primEDT .GDT_UInt16)
        (([(0 : Int), 1]).map fun x => MDValue.prim x 0)).1
      = (([(0 : Int), 1]).map fun x => MDValue.prim x 0, .ok) :=
  C9_datatype_roundtrip .GDT_CInt16 (by decide) [0, 1] (by decide)

/-- C10: an overlay dataset built over any external buffer of supported
element type exposes the wrapped data as a single MDArray under the fixed
name "array": construction succeeds, GetRootGroup succeeds, and
OpenMDArray "array" on it returns the overlay MDArray rather than
NotFound. -/
theorem C10_overlay_named_array (v : NPView) (t : GDALDataType)
    (ht : npToGDT v.vtype = some t) :
    ∃ d, openMultiDimensionalNumPyArray v = .opened d ∧
      d.getRootGroup.openMDArray "array" = some (overlayMDArray v t) := by
  refine ⟨⟨⟨"/", [("array", overlayMDArray v t)]⟩⟩, ?_, ?_⟩
  · unfold openMultiDimensionalNumPyArray
    rw [ht]
  · rfl

/-- C10 witness: the named overlay array at the concrete reversed byte
view. -/
theorem C10_witness :
    ∃ d, openMultiDimensionalNumPyArray revView23 = .opened d ∧
      d.getRootGroup.openMDArray "array" = some (overlayMDArray revView23 .GDT_Byte) :=
  C10_overlay_named_array revView23 .GDT_Byte (by decide)

/-- C2: on the fixed 2×3 byte MDArray holding `[[1,2,3],[4,5,6]]`, Read
with buffer stride `[3,1]` yields the flat sequence `(1,2,3,4,5,6)` and
Read with the transposed stride `[1,2]` yields `(1,4,2,5,3,6)`; and in
general, on any standard 2-D array, the buffer produced with row-major
stride `[cols,1]` and the buffer produced with the transposed stride
`[1,rows]` hold the same logical element at permuted flat positions:
position `r*cols+c` of the former equals position `r+c*rows` of the
latter. -/
theorem C2_stride_invariance (t : GDALDataType) (rows cols : Nat) (st : List MDValue)
    (r c : Nat) (hr : r < rows) (hc : c < cols) :
    readFullStride mdArray23 [3, 1]
      = ([.prim 1 0, .prim 2 0, .prim 3 0, .prim 4 0, .prim 5 0, .prim 6 0], .ok) ∧
    readFullStride mdArray23 [1, 2]
      = ([.prim 1 0, .prim 4 0, .prim 2 0, .prim 5 0, .prim 3 0, .prim 6 0], .ok) ∧
    ((readFullStride (mkStd2D t rows cols st) [((cols : Nat) : Int), 1]).1)[r * cols + c]?
      = ((readFullStride (mkStd2D t rows cols st) [1, ((rows : Nat) : Int)]).1)[r + c * rows]? := by
  refine ⟨by decide, by decide, ?_⟩
  have hmem : [r, c] ∈ allIndices [rows, cols] := mem_allIndices_two_intro rows cols r c hr hc
  have hpl : listProd [rows, cols] = rows * cols := by
    show rows * (cols * 1) = rows * cols
    rw [Nat.mul_one]
  have hpos1v : ∀ i j : Nat, (bufOffsetZ [((cols : Nat) : Int), 1] [i, j]).toNat = i * cols + j := by
    intro i j
    show ((i : Int) * (cols : Int) + ((j : Int) * 1 + 0)).toNat = i * cols + j
    rw [show (i : Int) * (cols : Int) + ((j : Int) * 1 + 0) = ((i * cols + j : Nat) : Int) by
      push_cast; ring]
    exact Int.toNat_natCast _
  have hpos2v : ∀ i j : Nat, (bufOffsetZ [1, ((rows : Nat) : Int)] [i, j]).toNat = i + j * rows := by
    intro i j
    show ((i : Int) * 1 + ((j : Int) * (rows : Int) + 0)).toNat = i + j * rows
    rw [show (i : Int) * 1 + ((j : Int) * (rows : Int) + 0) = ((i + j * rows : Nat) : Int) by
      push_cast; ring]
    exact Int.toNat_natCast _
  have key : ∀ (bs : List Int) (p : Nat),
      (∀ idx ∈ allIndices [rows, cols], 0 ≤ bufOffsetZ bs idx) →
      (bufOffsetZ bs [r, c]).toNat = p →
      p < rows * cols →
      (∀ i j i' j', i < rows → j < cols → i' < rows → j' < cols →
        (bufOffsetZ bs [i, j]).toNat = (bufOffsetZ bs [i', j']).toNat → i = i' ∧ j = j') →
      ((readFullStride (mkStd2D t rows cols st) bs).1)[p]?
        = some (convertValue (.primEDT t) (.primEDT t)
            (getI st (0 + bufOffsetZ (rowMajorStrides [rows, cols]) [r, c]))) := by
    intro bs p hpos hpv hplt hinj
    rw [show mkStd2D t rows cols st = ⟨"myarray", [rows, cols], .primEDT t, 0,
        rowMajorStrides [rows, cols], st⟩ from rfl,
      readFullStride_eval "myarray" [rows, cols] (.primEDT t) 0
        (rowMajorStrides [rows, cols]) st bs hpos]
    dsimp only
    rw [← hpv]
    apply natFoldSet_getElem?_of_mem
    · exact hmem
    · intro idx hidx hpeq
      obtain ⟨i, j, hi, hj, rfl⟩ := mem_allIndices_two_elim rows cols idx hidx
      obtain ⟨hieq, hjeq⟩ := hinj i j r c hi hj hr hc hpeq
      subst hieq
      subst hjeq
      rfl
    · show (bufOffsetZ bs [r, c]).toNat < (List.replicate (listProd [rows, cols]) defaultElem).length
      rw [hpv, List.length_replicate, hpl]
      exact hplt
  have hinj1 : ∀ i j i' j', i < rows → j < cols → i' < rows → j' < cols →
      (bufOffsetZ [((cols : Nat) : Int), 1] [i, j]).toNat
        = (bufOffsetZ [((cols : Nat) : Int), 1] [i', j']).toNat → i = i' ∧ j = j' := by
    intro i j i' j' _ hj _ hj' he
    rw [hpos1v i j, hpos1v i' j'] at he
    exact rowMajor_pos_unique cols i j i' j' hj hj' he
  have hinj2 : ∀ i j i' j', i < rows → j < cols → i' < rows → j' < cols →
      (bufOffsetZ [1, ((rows : Nat) : Int)] [i, j]).toNat
        = (bufOffsetZ [1, ((rows : Nat) : Int)] [i', j']).toNat → i = i' ∧ j = j' := by
    intro i j i' j' hi hj hi' hj' he
    rw [hpos2v i j, hpos2v i' j'] at he
    exact colMajor_pos_unique rows i j i' j' hi hi' he
  have hpos1 : ∀ idx ∈ allIndices [rows, cols], 0 ≤ bufOffsetZ [((cols : Nat) : Int), 1] idx := by
    intro idx _
    apply bufOffsetZ_nonneg
    intro s hs
    rcases List.mem_cons.mp hs with rfl | hs2
    · exact Int.natCast_nonneg cols
    · rcases List.mem_cons.mp hs2 with rfl | hs3
      · norm_num
      · cases hs3
  have hpos2 : ∀ idx ∈ allIndices [rows, cols], 0 ≤ bufOffsetZ [1, ((rows : Nat) : Int)] idx := by
    intro idx _
    apply bufOffsetZ_nonneg
    intro s hs
    rcases List.mem_cons.mp hs with rfl | hs2
    · norm_num
    · rcases List.mem_cons.mp hs2 with rfl | hs3
      · exact Int.natCast_nonneg rows
      · cases hs3
  rw [key [((cols : Nat) : Int), 1] (r * cols + c) hpos1 (hpos1v r c)
      (rowMajor_pos_lt rows cols r c hr hc) hinj1,
    key [1, ((rows : Nat) : Int)] (r + c * rows) hpos2 (hpos2v r c)
      (colMajor_pos_lt rows cols r c hr hc) hinj2]

/-- C2 witness: the permutation identity at row 1, column 2 of the concrete
2×3 byte array. -/
theorem C2_witness :
    readFullStride mdArray23 [3, 1]
      = ([.prim 1 0, .prim 2 0, .prim 3 0, .prim 4 0, .prim 5 0, .prim 6 0], .ok) ∧
    readFullStride mdArray23 [1, 2]
      = ([.prim 1 0, .prim 4 0, .prim 2 0, .prim 5 0, .prim 3 0, .prim 6 0], .ok) ∧
    ((readFullStride (mkStd2D .GDT_Byte 2 3 byteFlat123456) [((3 : Nat) : Int), 1]).1)[1 * 3 + 2]?
      = ((readFullStride (mkStd2D .GDT_Byte 2 3 byteFlat123456) [1, ((2 : Nat) : Int)]).1)[1 + 2 * 2]? :=
  C2_stride_invariance .GDT_Byte 2 3 byteFlat123456 1 2 (by decide) (by decide)

end GDALMD
